import Mathlib

/-!
Shallow embedding of the Game-of-Life canvas rendering core
(`www/js` driver: `run`, `getIndex`, `drawGrid`, `drawCells`, `renderLoop`).

The JavaScript source drives a wasm simulation engine and renders its
state onto a 2D canvas.  We embed the rendering logic as pure Lean
functions that produce traces of the canvas calls they would issue:

* `RenderOp` records one canvas-context call (or one read of the state
  view) issued by `drawGrid` / `drawCells`;
* `Ev` records one coarse event of the startup code (`run`) and of the
  animation loop body (`renderLoop`);
* `uint8ArrayNew` models the JavaScript `new Uint8Array(buffer, off, len)`
  constructor, and `stateView` the exact construction performed at the
  top of `drawCells`.

Grid dimensions `width`/`height` are runtime values obtained from the
engine, so they are parameters; the visual constants are the module-level
constants of the source.
-/

/-- `CELL_SIZE = 5` (px), module constant of the driver. -/
def CELL_SIZE : Nat := 5

/-- `GRID_COLOR = "#CCCCCC"`, module constant of the driver. -/
def GRID_COLOR : String := "#CCCCCC"

/-- `DEAD_COLOR = "#FFFFFF"`, module constant of the driver. -/
def DEAD_COLOR : String := "#FFFFFF"

/-- `ALIVE_COLOR = "#000000"`, module constant of the driver. -/
def ALIVE_COLOR : String := "#000000"

/-- Modelled from the spec: the engine's `Cell.Dead` enumeration value.
The engine (the wasm module imported by the driver) is not part of the
rendering core's sources; the spec states the convention `Dead = 0`,
`Alive = nonzero`. -/
def cellDead : Nat := 0

/-- `getIndex(row, column) = row * width + column` from the driver.
The source closes over `width`; here `width` is an explicit first
argument. -/
def getIndex (width row column : Nat) : Nat :=
  row * width + column

/-- One canvas-context call issued by the renderers, plus `readCell i`,
which records the read `cells[i]` of the state view performed by
`drawCells` just before it picks the fill style. -/
inductive RenderOp where
  | beginPath : RenderOp
  | setStrokeStyle : String → RenderOp
  | setFillStyle : String → RenderOp
  | moveTo : Nat → Nat → RenderOp
  | lineTo : Nat → Nat → RenderOp
  | fillRect : Nat → Nat → Nat → Nat → RenderOp
  | readCell : Nat → RenderOp
  | stroke : RenderOp
deriving DecidableEq, Repr

/-- Trace of `drawGrid`: `beginPath`, set the stroke style, a `moveTo` /
`lineTo` pair for each vertical line `i ∈ [0, width]`, then one for each
horizontal line `j ∈ [0, height]`, then a single `stroke`. -/
def drawGridOps (width height : Nat) : List RenderOp :=
  [RenderOp.beginPath, RenderOp.setStrokeStyle GRID_COLOR]
  ++ (List.range (width + 1)).flatMap (fun i =>
      [RenderOp.moveTo (i * (CELL_SIZE + 1) + 1) 0,
       RenderOp.lineTo (i * (CELL_SIZE + 1) + 1) ((CELL_SIZE + 1) * height + 1)])
  ++ (List.range (height + 1)).flatMap (fun j =>
      [RenderOp.moveTo 0 (j * (CELL_SIZE + 1) + 1),
       RenderOp.lineTo ((CELL_SIZE + 1) * width + 1) (j * (CELL_SIZE + 1) + 1)])
  ++ [RenderOp.stroke]

/-- The fill-style decision of `drawCells`:
`cells[idx] === Cell.Dead ? DEAD_COLOR : ALIVE_COLOR`, applied to the
byte read from the state view. -/
def cellFillStyle (b : Nat) : String :=
  if b == cellDead then DEAD_COLOR else ALIVE_COLOR

/-- Trace of `drawCells`, given the contents of the freshly constructed
state view as a function `cells` of the index: `beginPath`, then for each
`row ∈ [0, height)` (outer loop) and `col ∈ [0, width)` (inner loop) a
read of `cells[getIndex(row, col)]`, the fill-style assignment, and the
`fillRect` for that cell, then a single `stroke`. -/
def drawCellsOps (width height : Nat) (cells : Nat → Nat) : List RenderOp :=
  [RenderOp.beginPath]
  ++ (List.range height).flatMap (fun row =>
      (List.range width).flatMap (fun col =>
        [RenderOp.readCell (getIndex width row col),
         RenderOp.setFillStyle (cellFillStyle (cells (getIndex width row col))),
         RenderOp.fillRect (col * (CELL_SIZE + 1) + 1) (row * (CELL_SIZE + 1) + 1)
           CELL_SIZE CELL_SIZE]))
  ++ [RenderOp.stroke]

/-- JavaScript `new Uint8Array(buffer, byteOffset, length)` on a buffer
of bytes: it throws a `RangeError` (here: `none`) exactly when the
requested window `[byteOffset, byteOffset + length)` does not fit in the
buffer; otherwise it yields a zero-copy view of exactly `length` bytes
starting at `byteOffset`. -/
def uint8ArrayNew (buffer : List Nat) (byteOffset length : Nat) : Option (List Nat) :=
  if byteOffset + length ≤ buffer.length then
    some ((buffer.drop byteOffset).take length)
  else
    none

/-- The state-view construction at the top of `drawCells`:
`new Uint8Array(memory.buffer, cellsPtr, width * height)`. -/
def stateView (memory : List Nat) (cellsPtr width height : Nat) : Option (List Nat) :=
  uint8ArrayNew memory cellsPtr (width * height)

/-- The `fillRect` calls of a trace, in order, as `(x, y, w, h)`. -/
def fillRectsOf (ops : List RenderOp) : List (Nat × Nat × Nat × Nat) :=
  ops.filterMap (fun op =>
    match op with
    | RenderOp.fillRect x y w h => some (x, y, w, h)
    | _ => none)

/-- The state-view indices a trace reads, in order. -/
def readsOf (ops : List RenderOp) : List Nat :=
  ops.filterMap (fun op =>
    match op with
    | RenderOp.readCell i => some i
    | _ => none)

/-- The fill styles set by a trace, in order. -/
def fillStylesOf (ops : List RenderOp) : List String :=
  ops.filterMap (fun op =>
    match op with
    | RenderOp.setFillStyle c => some c
    | _ => none)

/-- The line segments of a trace: each `moveTo` immediately followed by a
`lineTo` contributes one segment (startpoint, endpoint). -/
def segmentsOf : List RenderOp → List ((Nat × Nat) × (Nat × Nat))
  | [] => []
  | RenderOp.moveTo x y :: RenderOp.lineTo x2 y2 :: rest =>
      ((x, y), (x2, y2)) :: segmentsOf rest
  | _ :: rest => segmentsOf rest

/-- Whether an op is the batched `stroke` commit. -/
def isStroke (op : RenderOp) : Bool :=
  match op with
  | RenderOp.stroke => true
  | _ => false

/-- Whether an op sets the stroke style. -/
def isSetStrokeStyle (op : RenderOp) : Bool :=
  match op with
  | RenderOp.setStrokeStyle _ => true
  | _ => false

/-- One coarse event of the startup code and of the animation loop. -/
inductive Ev where
  | setText : Ev
  | tickEv : Ev
  | gridEv : Ev
  | cellsEv : Ev
  | requestFrame : Ev
  | setCanvasHeight : Nat → Ev
  | setCanvasWidth : Nat → Ev
  | logError : Ev
deriving DecidableEq, Repr

/-- One execution of the `renderLoop` body, in source order:
`pre.textContent = universe.render()`, `universe.tick()`, `drawGrid()`,
`drawCells()`, `requestAnimationFrame(renderLoop)`. -/
def frameBody : List Ev :=
  [Ev.setText, Ev.tickEv, Ev.gridEv, Ev.cellsEv, Ev.requestFrame]

/-- Number of frame callbacks pending after `n` executed frames:
`run` ends with one `requestAnimationFrame(renderLoop)`; each executed
frame consumes its callback and issues every `requestFrame` of
`frameBody`. -/
def pendingAfter : Nat → Nat
  | 0 => 1
  | n + 1 => pendingAfter n - 1 + frameBody.count Ev.requestFrame

/-- Canvas-relevant events of a successful `run`, in source order: the
canvas is sized (height first, then width, as in the source) and the
first frame callback is requested. -/
def runOps (width height : Nat) : List Ev :=
  [Ev.setCanvasHeight ((CELL_SIZE + 1) * height + 1),
   Ev.setCanvasWidth ((CELL_SIZE + 1) * width + 1),
   Ev.requestFrame]

/-- Events of an entire program run in which `n` frames execute:
startup followed by `n` executions of the `renderLoop` body. -/
def programOps (width height n : Nat) : List Ev :=
  runOps width height ++ (List.range n).flatMap (fun _ => frameBody)

/-- Events of `run` depending on whether module initialization succeeds.
On failure, `init().catch(console.error)` logs the error and yields
`undefined`, so the very next statement `wasm.memory` throws; nothing
later in `run` executes: the canvas is never sized and no frame callback
is ever requested, hence no frame ever runs. -/
def runProgram (initOk : Bool) (width height n : Nat) : List Ev :=
  if initOk then programOps width height n
  else [Ev.logError]

/-- Whether an event resizes the canvas. -/
def isResize (e : Ev) : Bool :=
  match e with
  | Ev.setCanvasHeight _ => true
  | Ev.setCanvasWidth _ => true
  | _ => false

/-- Row-major indices computed by `getIndex` stay below `width * height`
whenever `row < height` and `col < width`. -/
theorem getIndex_lt {width height row col : Nat} (hr : row < height)
    (hc : col < width) : getIndex width row col < width * height := by
  unfold getIndex
  calc row * width + col < row * width + width := Nat.add_lt_add_left hc _
    _ = (row + 1) * width := by ring
    _ ≤ height * width := Nat.mul_le_mul_right _ hr
    _ = width * height := Nat.mul_comm _ _

/-- Flattening singleton blocks is a map. -/
theorem flatMap_singleton_map {α β : Type} (l : List α) (f : α → β) :
    l.flatMap (fun a => [f a]) = l.map f := by
  induction l with
  | nil => rfl
  | cons a l ih => simp [List.flatMap_cons, ih]

/-- The indices `drawCells` reads, computed: row-major enumeration of
`getIndex` over the two loops. -/
theorem readsOf_drawCells (width height : Nat) (cells : Nat → Nat) :
    readsOf (drawCellsOps width height cells)
      = (List.range height).flatMap (fun row =>
          (List.range width).map (fun col => getIndex width row col)) := by
  simp [readsOf, drawCellsOps, List.filterMap_flatMap, flatMap_singleton_map]

/-- Claim C2: `getIndex(row, col)` equals `row * width + col`, is
strictly increasing in `col` for fixed `row`, and, restricted to
`[0, height) × [0, width)`, is a bijection onto `[0, width * height)`. -/
theorem getIndex_rowMajor_bijection (width height : Nat) :
    (∀ row col, getIndex width row col = row * width + col) ∧
    (∀ row c₁ c₂, c₁ < c₂ → getIndex width row c₁ < getIndex width row c₂) ∧
    Function.Bijective (fun p : Fin height × Fin width =>
      (⟨getIndex width p.1.val p.2.val, getIndex_lt p.1.isLt p.2.isLt⟩ :
        Fin (width * height))) := by
  refine ⟨fun _ _ => rfl, fun row c₁ c₂ hlt => Nat.add_lt_add_left hlt _, ?_⟩
  rw [Fintype.bijective_iff_injective_and_card]
  constructor
  · rintro ⟨r₁, c₁⟩ ⟨r₂, c₂⟩ hpq
    have hw : 0 < width := c₁.pos
    simp only [Fin.mk.injEq] at hpq
    unfold getIndex at hpq
    rw [Nat.add_comm (r₁.val * width), Nat.add_comm (r₂.val * width)] at hpq
    have h₁ : (c₁.val + r₁.val * width) % width = c₁.val := by
      rw [Nat.add_mul_mod_self_right]; exact Nat.mod_eq_of_lt c₁.isLt
    have h₂ : (c₂.val + r₂.val * width) % width = c₂.val := by
      rw [Nat.add_mul_mod_self_right]; exact Nat.mod_eq_of_lt c₂.isLt
    have hc : c₁.val = c₂.val := by rw [← h₁, ← h₂, hpq]
    have hr : r₁.val = r₂.val := by
      rw [hc] at hpq
      exact Nat.eq_of_mul_eq_mul_right hw (Nat.add_left_cancel hpq)
    exact Prod.ext (Fin.ext hr) (Fin.ext hc)
  · rw [Fintype.card_prod, Fintype.card_fin, Fintype.card_fin, Fintype.card_fin,
      Nat.mul_comm]

/-- Witness for C2 at `width = 3`, `height = 2`. -/
theorem getIndex_rowMajor_bijection_witness :
    getIndex 3 1 2 = 1 * 3 + 2 ∧ getIndex 3 1 0 < getIndex 3 1 1 :=
  ⟨(getIndex_rowMajor_bijection 3 2).1 1 2,
   (getIndex_rowMajor_bijection 3 2).2.1 1 0 1 (by decide)⟩

/-- Claim C10: every read `drawCells` performs on the state view uses an
index below `width * height`, so no access falls outside a view of
length `width * height`. -/
theorem drawCells_reads_in_bounds (width height : Nat) (cells : Nat → Nat) :
    ∀ i ∈ readsOf (drawCellsOps width height cells), i < width * height := by
  intro i hi
  rw [readsOf_drawCells] at hi
  simp only [List.mem_flatMap, List.mem_map, List.mem_range] at hi
  obtain ⟨row, hr, col, hc, rfl⟩ := hi
  exact getIndex_lt hr hc

/-- Witness for C10: the read of index 3 in a 2×2 grid is in bounds. -/
theorem drawCells_reads_in_bounds_witness : (3 : Nat) < 2 * 2 :=
  drawCells_reads_in_bounds 2 2 (fun _ => 0) 3 (by decide)

/-- Claim C1, amended: the construction `drawCells` performs always
passes length `width * height`, and it yields a view of exactly that
length whenever the window fits the buffer; it fails fast exactly when
the window exceeds the buffer. (A supplied length smaller than
`width * height` that still fits the buffer does not fail; see the
counterexample.) -/
theorem stateView_length_correct (memory : List Nat) (cellsPtr width height : Nat) :
    (cellsPtr + width * height ≤ memory.length →
      ∃ v, stateView memory cellsPtr width height = some v ∧
        v.length = width * height) ∧
    (memory.length < cellsPtr + width * height →
      stateView memory cellsPtr width height = none) := by
  constructor
  · intro hle
    refine ⟨(memory.drop cellsPtr).take (width * height), ?_, ?_⟩
    · unfold stateView uint8ArrayNew
      rw [if_pos hle]
    · rw [List.length_take, List.length_drop]
      omega
  · intro hlt
    unfold stateView uint8ArrayNew
    rw [if_neg (by omega)]

/-- Witness for C1 (amended): success with the exact length on a fitting
buffer, failure on a too-small buffer. -/
theorem stateView_length_correct_witness :
    (∃ v, stateView (List.replicate 4 0) 0 2 2 = some v ∧ v.length = 2 * 2) ∧
    stateView (List.replicate 3 0) 0 2 2 = none :=
  ⟨(stateView_length_correct (List.replicate 4 0) 0 2 2).1 (by decide),
   (stateView_length_correct (List.replicate 3 0) 0 2 2).2 (by decide)⟩

/-- Counterexample to C1 as stated: with `width * height = 8 * 8 = 64`
bytes available, a supplied length of 50 does not make the construction
fail; it silently yields a 50-byte view. -/
theorem stateView_truncation_counterexample :
    (50 : Nat) ≠ 8 * 8 ∧
    uint8ArrayNew (List.replicate 64 0) 0 50 = some (List.replicate 50 0) := by
  constructor
  · decide
  · rfl

/-- Pointwise-equal block functions flatten to equal lists. -/
theorem flatMap_congr_mem {α β : Type} {l : List α} {f g : α → List β}
    (h : ∀ a ∈ l, f a = g a) : l.flatMap f = l.flatMap g := by
  induction l with
  | nil => rfl
  | cons a l ih =>
    rw [List.flatMap_cons, List.flatMap_cons, h a (List.mem_cons_self a l),
      ih (fun b hb => h b (List.mem_cons_of_mem a hb))]

/-- The rectangles `drawCells` fills, computed: row-major enumeration of
the per-cell rectangles. -/
theorem fillRectsOf_drawCells (width height : Nat) (cells : Nat → Nat) :
    fillRectsOf (drawCellsOps width height cells)
      = (List.range height).flatMap (fun row =>
          (List.range width).map (fun col =>
            (col * (CELL_SIZE + 1) + 1, row * (CELL_SIZE + 1) + 1,
              CELL_SIZE, CELL_SIZE))) := by
  simp [fillRectsOf, drawCellsOps, List.filterMap_flatMap, flatMap_singleton_map]

/-- In a duplicate-free list, a member is counted exactly once. -/
theorem count_eq_one_of_mem_nodup {α : Type} [BEq α] [LawfulBEq α] {a : α}
    {l : List α} (hn : l.Nodup) (ha : a ∈ l) : l.count a = 1 := by
  induction l with
  | nil => cases ha
  | cons b l ih =>
    rw [List.count_cons]
    rcases List.mem_cons.mp ha with rfl | hmem
    · rw [List.count_eq_zero.mpr (List.nodup_cons.mp hn).1]
      simp
    · have hne : b ≠ a := by
        rintro rfl
        exact (List.nodup_cons.mp hn).1 hmem
      rw [ih (List.nodup_cons.mp hn).2 hmem]
      simp [hne]

/-- The row-major rectangle list has no duplicates. -/
theorem fillRects_rowMajor_nodup (width height : Nat) :
    ((List.range height).flatMap (fun row =>
        (List.range width).map (fun col =>
          (col * (CELL_SIZE + 1) + 1, row * (CELL_SIZE + 1) + 1,
            CELL_SIZE, CELL_SIZE)))).Nodup := by
  rw [List.nodup_flatMap]
  constructor
  · intro row _
    refine List.Nodup.map ?_ (List.nodup_range width)
    intro a b hab
    simp only [Prod.mk.injEq] at hab
    have h := hab.1
    simp only [CELL_SIZE] at h
    omega
  · refine (List.nodup_range height).imp ?_
    intro a b hne
    intro x hxa hxb
    simp only [List.mem_map, List.mem_range] at hxa hxb
    obtain ⟨ca, _, rfl⟩ := hxa
    obtain ⟨cb, _, hcb⟩ := hxb
    simp only [Prod.mk.injEq] at hcb
    have h := hcb.2.1
    simp only [CELL_SIZE] at h
    omega

/-- Claim C3: each frame, `drawCells` fills exactly one
`CELL_SIZE × CELL_SIZE` rectangle at
`(col * (CELL_SIZE + 1) + 1, row * (CELL_SIZE + 1) + 1)` for every cell
(row outer, col inner, row-major), reading `StateView[row * width + col]`
for it; no cell is skipped or drawn twice. -/
theorem drawCells_visits_rowMajor (width height : Nat) (cells : Nat → Nat) :
    fillRectsOf (drawCellsOps width height cells)
      = (List.range height).flatMap (fun row =>
          (List.range width).map (fun col =>
            (col * (CELL_SIZE + 1) + 1, row * (CELL_SIZE + 1) + 1,
              CELL_SIZE, CELL_SIZE))) ∧
    (fillRectsOf (drawCellsOps width height cells)).Nodup ∧
    (fillRectsOf (drawCellsOps width height cells)).length = height * width ∧
    (∀ row col, row < height → col < width →
      (fillRectsOf (drawCellsOps width height cells)).count
        (col * (CELL_SIZE + 1) + 1, row * (CELL_SIZE + 1) + 1,
          CELL_SIZE, CELL_SIZE) = 1) ∧
    readsOf (drawCellsOps width height cells)
      = (List.range height).flatMap (fun row =>
          (List.range width).map (fun col => getIndex width row col)) := by
  refine ⟨fillRectsOf_drawCells width height cells, ?_, ?_, ?_,
    readsOf_drawCells width height cells⟩
  · rw [fillRectsOf_drawCells]
    exact fillRects_rowMajor_nodup width height
  · rw [fillRectsOf_drawCells, List.length_flatMap]
    have hconst : (List.length ∘ fun row : Nat =>
        List.map (fun col => (col * (CELL_SIZE + 1) + 1, row * (CELL_SIZE + 1) + 1,
          CELL_SIZE, CELL_SIZE)) (List.range width)) = fun _ : Nat => width := by
      funext row
      simp
    rw [hconst, List.map_const', List.sum_replicate, smul_eq_mul, List.length_range]
  · intro row col hr hc
    rw [fillRectsOf_drawCells]
    refine count_eq_one_of_mem_nodup (fillRects_rowMajor_nodup width height) ?_
    rw [List.mem_flatMap]
    exact ⟨row, List.mem_range.mpr hr,
      List.mem_map.mpr ⟨col, List.mem_range.mpr hc, rfl⟩⟩

/-- Witness for C3: in a 2×2 grid, the rectangle of cell (1, 0) is
filled exactly once. -/
theorem drawCells_visits_rowMajor_witness :
    (fillRectsOf (drawCellsOps 2 2 (fun _ => 0))).count
      (0 * (CELL_SIZE + 1) + 1, 1 * (CELL_SIZE + 1) + 1,
        CELL_SIZE, CELL_SIZE) = 1 :=
  (drawCells_visits_rowMajor 2 2 (fun _ => 0)).2.2.2.1 1 0 (by decide) (by decide)

/-- Claim C4: the fill color is a pure function of the state byte alone:
the dead color exactly for the `Dead` encoding 0, the alive color for
every nonzero byte; and the whole `drawCells` trace depends only on the
bytes the view exposes at indices below `width * height`. -/
theorem cellFillStyle_pure :
    cellDead = 0 ∧
    (∀ b, cellFillStyle b = DEAD_COLOR ↔ b = 0) ∧
    (∀ b, cellFillStyle b = ALIVE_COLOR ↔ b ≠ 0) ∧
    (∀ width height cells cells',
      (∀ i, i < width * height → cells i = cells' i) →
      drawCellsOps width height cells = drawCellsOps width height cells') := by
  refine ⟨rfl, ?_, ?_, ?_⟩
  · intro b
    by_cases hb : b = 0
    · subst hb
      simp [cellFillStyle, cellDead]
    · simp only [cellFillStyle, cellDead, beq_iff_eq, if_neg hb]
      constructor
      · intro h
        exact absurd h (by decide)
      · intro h
        exact absurd h hb
  · intro b
    by_cases hb : b = 0
    · subst hb
      simp only [cellFillStyle, cellDead, beq_iff_eq, if_pos rfl]
      constructor
      · intro h
        exact absurd h.symm (by decide)
      · intro h
        exact absurd rfl h
    · simp [cellFillStyle, cellDead, hb]
  · intro width height cells cells' hagree
    unfold drawCellsOps
    have hmain : (List.range height).flatMap (fun row =>
        (List.range width).flatMap (fun col =>
          [RenderOp.readCell (getIndex width row col),
           RenderOp.setFillStyle (cellFillStyle (cells (getIndex width row col))),
           RenderOp.fillRect (col * (CELL_SIZE + 1) + 1) (row * (CELL_SIZE + 1) + 1)
             CELL_SIZE CELL_SIZE]))
      = (List.range height).flatMap (fun row =>
          (List.range width).flatMap (fun col =>
            [RenderOp.readCell (getIndex width row col),
             RenderOp.setFillStyle (cellFillStyle (cells' (getIndex width row col))),
             RenderOp.fillRect (col * (CELL_SIZE + 1) + 1) (row * (CELL_SIZE + 1) + 1)
               CELL_SIZE CELL_SIZE])) := by
      refine flatMap_congr_mem ?_
      intro row hrow
      refine flatMap_congr_mem ?_
      intro col hcol
      rw [List.mem_range] at hrow hcol
      rw [hagree (getIndex width row col) (getIndex_lt hrow hcol)]
    rw [hmain]

/-- Witness for C4: two view functions that agree on the window but
differ outside it produce the same `drawCells` trace. -/
theorem cellFillStyle_pure_witness :
    drawCellsOps 2 2 (fun i => if i < 4 then 1 else 5)
      = drawCellsOps 2 2 (fun i => if i < 4 then 1 else 6) :=
  cellFillStyle_pure.2.2.2 2 2 _ _ (by
    intro i hi
    have h4 : i < 4 := by omega
    rw [if_pos h4, if_pos h4])

/-- A `moveTo` immediately followed by a `lineTo` contributes exactly
its segment. -/
theorem segmentsOf_cons_pair (x y x2 y2 : Nat) (rest : List RenderOp) :
    segmentsOf (RenderOp.moveTo x y :: RenderOp.lineTo x2 y2 :: rest)
      = ((x, y), (x2, y2)) :: segmentsOf rest := rfl

/-- Segments contributed by the vertical-lines loop of `drawGrid`. -/
theorem segmentsOf_vertical (height : Nat) (l : List Nat) (rest : List RenderOp) :
    segmentsOf ((l.flatMap fun i =>
        [RenderOp.moveTo (i * (CELL_SIZE + 1) + 1) 0,
         RenderOp.lineTo (i * (CELL_SIZE + 1) + 1) ((CELL_SIZE + 1) * height + 1)]) ++ rest)
      = (l.map fun i => ((i * (CELL_SIZE + 1) + 1, 0),
          (i * (CELL_SIZE + 1) + 1, (CELL_SIZE + 1) * height + 1))) ++ segmentsOf rest := by
  induction l with
  | nil => rfl
  | cons x l ih =>
    rw [List.flatMap_cons, List.map_cons]
    simp only [List.cons_append, List.nil_append, List.append_assoc]
    rw [segmentsOf_cons_pair, ih]

/-- Segments contributed by the horizontal-lines loop of `drawGrid`. -/
theorem segmentsOf_horizontal (width : Nat) (l : List Nat) (rest : List RenderOp) :
    segmentsOf ((l.flatMap fun j =>
        [RenderOp.moveTo 0 (j * (CELL_SIZE + 1) + 1),
         RenderOp.lineTo ((CELL_SIZE + 1) * width + 1) (j * (CELL_SIZE + 1) + 1)]) ++ rest)
      = (l.map fun j => ((0, j * (CELL_SIZE + 1) + 1),
          ((CELL_SIZE + 1) * width + 1, j * (CELL_SIZE + 1) + 1))) ++ segmentsOf rest := by
  induction l with
  | nil => rfl
  | cons x l ih =>
    rw [List.flatMap_cons, List.map_cons]
    simp only [List.cons_append, List.nil_append, List.append_assoc]
    rw [segmentsOf_cons_pair, ih]

/-- The segments of one `drawGrid` frame, computed. -/
theorem segmentsOf_drawGrid (width height : Nat) :
    segmentsOf (drawGridOps width height)
      = ((List.range (width + 1)).map fun i =>
          ((i * (CELL_SIZE + 1) + 1, 0),
           (i * (CELL_SIZE + 1) + 1, (CELL_SIZE + 1) * height + 1)))
        ++ ((List.range (height + 1)).map fun j =>
          ((0, j * (CELL_SIZE + 1) + 1),
           ((CELL_SIZE + 1) * width + 1, j * (CELL_SIZE + 1) + 1))) := by
  unfold drawGridOps
  simp only [List.cons_append, List.nil_append, List.append_assoc]
  show segmentsOf ((List.range (width + 1)).flatMap _ ++ _) = _
  rw [segmentsOf_vertical, segmentsOf_horizontal,
    show segmentsOf [RenderOp.stroke] = [] from rfl, List.append_nil]

/-- Neither loop of `drawGrid` emits a `stroke`: only `moveTo` / `lineTo`
pairs come out of the flattened blocks. -/
theorem countP_flatMap_pair_eq_zero (p : RenderOp → Bool) (l : List Nat)
    (f g : Nat → RenderOp)
    (hf : ∀ i, p (f i) = false) (hg : ∀ i, p (g i) = false) :
    (l.flatMap fun i => [f i, g i]).countP p = 0 := by
  rw [List.countP_eq_zero]
  intro a ha
  rw [List.mem_flatMap] at ha
  obtain ⟨i, -, hmem⟩ := ha
  simp only [List.mem_cons, List.not_mem_nil, or_false] at hmem
  rcases hmem with rfl | rfl
  · simp [hf i]
  · simp [hg i]

/-- Claim C5: each frame, `drawGrid` draws the `width + 1` vertical
segments and `height + 1` horizontal segments at their specified
endpoints, in that order; it sets the stroke style once (to
`GRID_COLOR`) and commits all lines with a single batched `stroke`. -/
theorem drawGrid_lines_batched (width height : Nat) :
    segmentsOf (drawGridOps width height)
      = ((List.range (width + 1)).map fun i =>
          ((i * (CELL_SIZE + 1) + 1, 0),
           (i * (CELL_SIZE + 1) + 1, (CELL_SIZE + 1) * height + 1)))
        ++ ((List.range (height + 1)).map fun j =>
          ((0, j * (CELL_SIZE + 1) + 1),
           ((CELL_SIZE + 1) * width + 1, j * (CELL_SIZE + 1) + 1))) ∧
    (segmentsOf (drawGridOps width height)).length = (width + 1) + (height + 1) ∧
    (drawGridOps width height).countP isStroke = 1 ∧
    (drawGridOps width height).countP isSetStrokeStyle = 1 ∧
    RenderOp.setStrokeStyle GRID_COLOR ∈ drawGridOps width height := by
  refine ⟨segmentsOf_drawGrid width height, ?_, ?_, ?_, ?_⟩
  · rw [segmentsOf_drawGrid, List.length_append, List.length_map, List.length_map,
      List.length_range, List.length_range]
  · unfold drawGridOps
    have h1 : ((List.range (width + 1)).flatMap fun i =>
        [RenderOp.moveTo (i * (CELL_SIZE + 1) + 1) 0,
         RenderOp.lineTo (i * (CELL_SIZE + 1) + 1)
           ((CELL_SIZE + 1) * height + 1)]).countP isStroke = 0 :=
      countP_flatMap_pair_eq_zero _ _ _ _ (fun i => rfl) (fun i => rfl)
    have h2 : ((List.range (height + 1)).flatMap fun j =>
        [RenderOp.moveTo 0 (j * (CELL_SIZE + 1) + 1),
         RenderOp.lineTo ((CELL_SIZE + 1) * width + 1)
           (j * (CELL_SIZE + 1) + 1)]).countP isStroke = 0 :=
      countP_flatMap_pair_eq_zero _ _ _ _ (fun j => rfl) (fun j => rfl)
    rw [List.countP_append, List.countP_append, List.countP_append, h1, h2]
    rfl
  · unfold drawGridOps
    have h1 : ((List.range (width + 1)).flatMap fun i =>
        [RenderOp.moveTo (i * (CELL_SIZE + 1) + 1) 0,
         RenderOp.lineTo (i * (CELL_SIZE + 1) + 1)
           ((CELL_SIZE + 1) * height + 1)]).countP isSetStrokeStyle = 0 :=
      countP_flatMap_pair_eq_zero _ _ _ _ (fun i => rfl) (fun i => rfl)
    have h2 : ((List.range (height + 1)).flatMap fun j =>
        [RenderOp.moveTo 0 (j * (CELL_SIZE + 1) + 1),
         RenderOp.lineTo ((CELL_SIZE + 1) * width + 1)
           (j * (CELL_SIZE + 1) + 1)]).countP isSetStrokeStyle = 0 :=
      countP_flatMap_pair_eq_zero _ _ _ _ (fun j => rfl) (fun j => rfl)
    rw [List.countP_append, List.countP_append, List.countP_append, h1, h2]
    rfl
  · unfold drawGridOps
    simp [List.mem_append]

/-- Claim C6: every execution of the `renderLoop` body performs, in this
fixed order: render the textual snapshot, `tick`, `drawGrid`,
`drawCells`, request the next frame callback; the body has no duplicate
step, ends by rescheduling itself, and consequently a frame callback is
pending after every number of executed frames (the loop never reaches a
terminal state). -/
theorem renderLoop_order_nonterminating :
    frameBody.indexOf Ev.setText < frameBody.indexOf Ev.tickEv ∧
    frameBody.indexOf Ev.tickEv < frameBody.indexOf Ev.gridEv ∧
    frameBody.indexOf Ev.gridEv < frameBody.indexOf Ev.cellsEv ∧
    frameBody.indexOf Ev.cellsEv < frameBody.indexOf Ev.requestFrame ∧
    frameBody.Nodup ∧
    frameBody.getLast? = some Ev.requestFrame ∧
    ∀ n, 0 < pendingAfter n := by
  refine ⟨by decide, by decide, by decide, by decide, by decide, by decide, ?_⟩
  have h : ∀ n, pendingAfter n = 1 := by
    intro n
    induction n with
    | zero => rfl
    | succ n ih =>
      rw [pendingAfter, ih]
      decide
  intro n
  rw [h n]
  exact Nat.one_pos

/-- Claim C7: over a whole program run with any number of frames, the
canvas is sized exactly once, to height `(CELL_SIZE + 1) * height + 1`
and width `(CELL_SIZE + 1) * width + 1`, and never resized afterwards. -/
theorem canvas_sized_once (width height n : Nat) :
    (programOps width height n).filter isResize
      = [Ev.setCanvasHeight ((CELL_SIZE + 1) * height + 1),
         Ev.setCanvasWidth ((CELL_SIZE + 1) * width + 1)] := by
  unfold programOps runOps
  rw [List.filter_append]
  have h1 : ((List.range n).flatMap fun _ => frameBody).filter isResize = [] := by
    rw [List.filter_eq_nil_iff]
    intro a ha
    rw [List.mem_flatMap] at ha
    obtain ⟨i, -, hmem⟩ := ha
    simp only [frameBody, List.mem_cons, List.not_mem_nil, or_false] at hmem
    rcases hmem with rfl | rfl | rfl | rfl | rfl <;> simp [isResize]
  rw [h1, List.append_nil]
  rfl

/-- Claim C9: when module initialization fails, the error is reported on
the logging side channel and the animation loop is never entered: no
frame callback is ever requested and no tick ever runs. -/
theorem init_failure_aborts (width height n : Nat) :
    Ev.logError ∈ runProgram false width height n ∧
    Ev.requestFrame ∉ runProgram false width height n ∧
    Ev.tickEv ∉ runProgram false width height n := by
  refine ⟨?_, ?_, ?_⟩ <;> simp [runProgram]

/-- Claim C8: rebuilding the state view without an intervening engine
step is idempotent: two views constructed over the same-sized memory
whose window contents are unchanged agree at every index in
`[0, width * height)`; each frame's view is a function of the current
memory contents only, never of a cached copy. -/
theorem stateView_rebuild_idempotent (memory memory2 : List Nat)
    (cellsPtr width height : Nat) (v v2 : List Nat)
    (hlen : memory.length = memory2.length)
    (hagree : ∀ i, i < width * height →
      memory.getD (cellsPtr + i) 0 = memory2.getD (cellsPtr + i) 0)
    (hv : stateView memory cellsPtr width height = some v)
    (hv2 : stateView memory2 cellsPtr width height = some v2) :
    ∀ i, i < width * height → v.getD i 0 = v2.getD i 0 := by
  intro i hi
  have hle : cellsPtr + width * height ≤ memory.length := by
    by_contra hcon
    unfold stateView uint8ArrayNew at hv
    rw [if_neg hcon] at hv
    exact Option.noConfusion hv
  have hle2 : cellsPtr + width * height ≤ memory2.length := by
    by_contra hcon
    unfold stateView uint8ArrayNew at hv2
    rw [if_neg hcon] at hv2
    exact Option.noConfusion hv2
  unfold stateView uint8ArrayNew at hv hv2
  rw [if_pos hle] at hv
  rw [if_pos hle2] at hv2
  injection hv with hv
  injection hv2 with hv2
  subst hv
  subst hv2
  have hag := hagree i hi
  rw [List.getD_eq_getElem?_getD, List.getD_eq_getElem?_getD] at hag
  rw [List.getD_eq_getElem?_getD, List.getD_eq_getElem?_getD,
    List.getElem?_take, if_pos hi, List.getElem?_drop,
    List.getElem?_take, if_pos hi, List.getElem?_drop, hag]

/-- Witness for C8: two memories that agree on the 2×2 window but differ
beyond it yield views with equal entries at index 1. -/
theorem stateView_rebuild_idempotent_witness :
    ([1, 2, 3, 4] : List Nat).getD 1 0 = ([1, 2, 3, 4] : List Nat).getD 1 0 :=
  stateView_rebuild_idempotent [1, 2, 3, 4, 9] [1, 2, 3, 4, 8] 0 2 2
    [1, 2, 3, 4] [1, 2, 3, 4] (by decide) (by decide) (by decide) (by decide)
    1 (by decide)
